import Mathlib

/-!
Verification development for the Process-Scheduler repository
(src/Project1/main.go).

The Go source is shallowly embedded below:
* `Process`, `TimeSlice` mirror the structs of main.go (int64 fields are
  modelled as `Int`; none of the verified claims depends on 64-bit overflow).
* `ScheduleRow` models one row of the `schedule [][]string` table.  The Go
  code stores `fmt.Sprint` of int64 values; since that formatting is
  injective we keep the integer values themselves.
* Each scheduling function (`FCFSSchedule`, `SJFSchedule`,
  `SJFPrioritySchedule`, `RRSchedule`) is embedded as a pure function; its
  time-stepped loop becomes an explicit step function iterated with fuel
  (the Go loops have no fuel; all concrete evaluations below use fuel large
  enough for the loop to reach its exit condition, and the universally
  quantified theorems hold for every fuel).
* Go panics (index out of range) are modelled with `Option`/explicit exit
  tags: `none` or a panic tag means the Go program would crash.
* Go `float64` aggregate averages are modelled in `ℚ`; note that `ℚ`
  division by zero yields 0 whereas Go float division 0/0 yields NaN, so no
  theorem below asserts anything about an average whose denominator is 0.
* Each state record carries a `mem` field holding the caller's slice
  (backing array).  Go passes slices by header-copy and the schedulers
  never assign through the input slice, so `mem` is threaded read-only;
  the frame theorems prove it is returned unchanged.
-/

namespace ProcessScheduler

/-- Embeds the Go struct `Process` (main.go lines 57-66).  Field order and
names follow the source; int64 becomes `Int`. -/
structure Process where
  ProcessID : Int
  ArrivalTime : Int
  BurstDuration : Int
  Priority : Int
  RemainingTime : Int
  CompleteTime : Int
  TurnAroundTime : Int
  WaitTime : Int
deriving Repr, DecidableEq

/-- Embeds the Go struct `TimeSlice` (main.go lines 67-71). -/
structure TimeSlice where
  PID : Int
  Start : Int
  Stop : Int
deriving Repr, DecidableEq

/-- One row of the Go `schedule [][]string` table: the seven columns
ID, Priority, Burst, Arrival, Wait, Turnaround, Exit, kept as integers. -/
structure ScheduleRow where
  pid : Int
  priority : Int
  burst : Int
  arrival : Int
  wait : Int
  turnaround : Int
  exit : Int
deriving Repr, DecidableEq

/-- The comparator of `sortArrivalQueue` (main.go lines 373-377):
ArrivalTime ascending, tie-break BurstDuration ascending. -/
def arrivalLess (a b : Process) : Bool :=
  decide (a.ArrivalTime < b.ArrivalTime) ||
    (decide (a.ArrivalTime = b.ArrivalTime) && decide (a.BurstDuration < b.BurstDuration))

/-- The comparator of `sortDeployQueue` (main.go lines 379-383):
RemainingTime ascending, tie-break ArrivalTime ascending. -/
def deployLess (a b : Process) : Bool :=
  decide (a.RemainingTime < b.RemainingTime) ||
    (decide (a.RemainingTime = b.RemainingTime) && decide (a.ArrivalTime < b.ArrivalTime))

/-- The comparator of `sortPriorityQueue` (main.go lines 384-388):
Priority ascending, tie-break BurstDuration ascending, then ArrivalTime
ascending. -/
def priorityLess (a b : Process) : Bool :=
  decide (a.Priority < b.Priority) ||
    (decide (a.Priority = b.Priority) && decide (a.BurstDuration < b.BurstDuration)) ||
    (decide (a.Priority = b.Priority) && decide (a.BurstDuration = b.BurstDuration) &&
      decide (a.ArrivalTime < b.ArrivalTime))

/-- Insert `p` into a list sorted by the strict comparator `less`, before
the first element it strictly precedes. -/
def insertLess (less : Process → Process → Bool) (p : Process) : List Process → List Process
  | [] => [p]
  | q :: qs => if less p q then p :: q :: qs else q :: insertLess less p qs

/-- Insertion sort with a strict comparator; models Go `sort.Slice` with the
given less function.  (Go's sort is unstable; every sorted call the claims
depend on has pairwise distinct keys, where any correct sort agrees.) -/
def sortLess (less : Process → Process → Bool) : List Process → List Process
  | [] => []
  | p :: ps => insertLess less p (sortLess less ps)

/-- Embeds sortArrivalQueue of main.go. -/
def sortArrivalQueue (pq : List Process) : List Process := sortLess arrivalLess pq

/-- Embeds sortDeployQueue of main.go. -/
def sortDeployQueue (pq : List Process) : List Process := sortLess deployLess pq

/-- Embeds sortPriorityQueue of main.go. -/
def sortPriorityQueue (pq : List Process) : List Process := sortLess priorityLess pq

/-- What a scheduler hands to the output helpers: `outputTitle` emits a
title, `outputGantt` a timeline, `outputSchedule` the metrics table with
the three aggregate scalars (rendering itself is out of scope). -/
inductive OutputEvent where
  | title (t : String)
  | gantt (g : List TimeSlice)
  | table (rows : List (Option ScheduleRow)) (aveWait aveTurnaround aveThroughput : ℚ)
deriving Repr, DecidableEq

def isGanttEv : OutputEvent → Bool
  | OutputEvent.gantt _ => true
  | _ => false

def isTableEv : OutputEvent → Bool
  | OutputEvent.table _ _ _ _ => true
  | _ => false

/-- Whether a scheduler's output contains a Timeline (a Gantt chart). -/
def hasGantt (evs : List OutputEvent) : Bool := evs.any isGanttEv

/-- Whether a scheduler's output contains the metrics table. -/
def hasTable (evs : List OutputEvent) : Bool := evs.any isTableEv

/-- State of the `FCFSSchedule` loop (main.go lines 97-137).  `mem` is the
caller's slice, which the loop only reads. -/
structure FCFSState where
  mem : List Process
  serviceTime : Int
  totalWait : Int
  totalTurnaround : Int
  lastCompletion : Int
  waitingTime : Int
  schedule : List ScheduleRow
  gantt : List TimeSlice
deriving Repr, DecidableEq

/-- One iteration of the FCFS loop body (main.go lines 107-137). -/
def fcfsStep (s : FCFSState) (p : Process) : FCFSState :=
  let waitingTime := if 0 < p.ArrivalTime then s.serviceTime - p.ArrivalTime else s.waitingTime
  let start := waitingTime + p.ArrivalTime
  let turnaround := p.BurstDuration + waitingTime
  let completion := p.BurstDuration + p.ArrivalTime + waitingTime
  let serviceTime := s.serviceTime + p.BurstDuration
  { s with
    waitingTime := waitingTime
    totalWait := s.totalWait + waitingTime
    totalTurnaround := s.totalTurnaround + turnaround
    lastCompletion := completion
    schedule := s.schedule ++
      [⟨p.ProcessID, p.Priority, p.BurstDuration, p.ArrivalTime, waitingTime, turnaround, completion⟩]
    serviceTime := serviceTime
    gantt := s.gantt ++ [⟨p.ProcessID, start, serviceTime⟩] }

/-- The FCFS loop: `for i := range processes` reads each process in input
order (the list argument enumerates the elements of `mem` in order). -/
def fcfsList (s : FCFSState) : List Process → FCFSState
  | [] => s
  | p :: rest => fcfsList (fcfsStep s p) rest

def fcfsInit (ps : List Process) : FCFSState :=
  ⟨ps, 0, 0, 0, 0, 0, [], []⟩

/-- Running the whole FCFS loop on the input slice. -/
def fcfsRun (ps : List Process) : FCFSState := fcfsList (fcfsInit ps) ps

/-- Embeds FCFSSchedule (main.go lines 97-147): loop, then title, Gantt chart
and schedule table with the three aggregates. -/
def FCFSSchedule (title : String) (ps : List Process) : List OutputEvent :=
  let s := fcfsRun ps
  [OutputEvent.title title,
   OutputEvent.gantt s.gantt,
   OutputEvent.table (s.schedule.map some)
     ((s.totalWait : ℚ) / (ps.length : ℚ))
     ((s.totalTurnaround : ℚ) / (ps.length : ℚ))
     ((ps.length : ℚ) / (s.lastCompletion : ℚ))]

/-- Sum of the burst durations of the first `i` input processes: the value
of the FCFS `serviceTime` clock when iteration `i` starts. -/
def prefBurst (ps : List Process) (i : Nat) : Int :=
  ((ps.take i).map Process.BurstDuration).sum

/-- The FCFS loop state after the first `i` iterations. -/
def fcfsStateAt (ps : List Process) (i : Nat) : FCFSState :=
  fcfsList (fcfsInit ps) (ps.take i)

/-- The zero value of the Go `Process` struct. -/
def emptyProcess : Process := ⟨0, 0, 0, 0, 0, 0, 0, 0⟩

/-- State of the preemptive loops of `SJFSchedule` (main.go lines 214-281)
and `SJFPrioritySchedule` (lines 149-212): the arrival-pending queue `pqA`,
the ready queue `pq`, the local loop variable `process`, the clock
`currentTime`, the accumulated table and totals, and the caller's slice
`mem` (read only at initialisation). -/
structure PState where
  mem : List Process
  pqA : List Process
  pq : List Process
  process : Process
  currentTime : Int
  totalWait : Int
  totalTurnaround : Int
  schedule : List ScheduleRow
deriving Repr, DecidableEq

/-- Remove the first element satisfying `pred`; models finding index `i` in
the Go arrival scan and calling `RemoveProcess(i)`. -/
def removeFirst (pred : Process → Bool) : List Process → List Process
  | [] => []
  | p :: rest => if pred p then rest else p :: removeFirst pred rest

/-- The head-of-queue pick at the top of the preemptive loop body
(`if process.RemainingTime == 0 { process = pq.processes[0] }`,
main.go lines 233-239).  The loop guard keeps `pq` nonempty so `headD`
is exact. -/
def sjfPick (s : PState) : Process :=
  if s.process.RemainingTime = 0 then s.pq.headD emptyProcess else s.process

/-- The picked process after the per-tick decrement `RemainingTime -= 1`. -/
def sjfRunning (s : PState) : Process :=
  { sjfPick s with RemainingTime := (sjfPick s).RemainingTime - 1 }

/-- Completion bookkeeping (main.go lines 244-246): completion, turnaround
and wait fields of a process finishing at clock `t`. -/
def sjfFin (t : Int) (r : Process) : Process :=
  { r with
    CompleteTime := t
    TurnAroundTime := t - r.ArrivalTime
    WaitTime := (t - r.ArrivalTime) - r.BurstDuration }

/-- The schedule-table row written for a completed process
(main.go lines 249-257). -/
def finRow (p : Process) : ScheduleRow :=
  ⟨p.ProcessID, p.Priority, p.BurstDuration, p.ArrivalTime,
   p.WaitTime, p.TurnAroundTime, p.CompleteTime⟩

/-- One iteration of the preemptive loop body (main.go lines 232-273 for
SJF; lines 167-205 are the identical body of `SJFPrioritySchedule` with
`sortPriorityQueue` in place of `sortDeployQueue`, abstracted here as
`sortFn`).  The loop guard `len(pq.processes) > 0` lives in
`scheduleLoop`; the body assumes `pq` nonempty (Go would panic otherwise,
and the guard makes that unreachable, so `headD`/`tail` are exact).
Order of operations inside a tick follows the source exactly: decrement,
clock increment, completion check, arrival scan (the scan admits at most
the first pending process whose ArrivalTime equals the new clock, then
breaks). -/
def sjfStep (sortFn : List Process → List Process) (s : PState) : PState :=
  if (sjfRunning s).RemainingTime = 0 then
    { s with
      process := sjfFin (s.currentTime + 1) (sjfRunning s)
      currentTime := s.currentTime + 1
      totalWait := s.totalWait + (sjfFin (s.currentTime + 1) (sjfRunning s)).WaitTime
      totalTurnaround := s.totalTurnaround + (sjfFin (s.currentTime + 1) (sjfRunning s)).TurnAroundTime
      schedule := s.schedule ++ [finRow (sjfFin (s.currentTime + 1) (sjfRunning s))]
      pq := s.pq.tail }
  else
    match s.pqA.find? (fun p => p.ArrivalTime == s.currentTime + 1) with
    | none => { s with process := sjfRunning s, currentTime := s.currentTime + 1 }
    | some p =>
      { s with
        pq := sortFn (s.pq.tail ++ [p, sjfRunning s])
        pqA := removeFirst (fun q => q.ArrivalTime == s.currentTime + 1) s.pqA
        process := (sortFn (s.pq.tail ++ [p, sjfRunning s])).headD emptyProcess
        currentTime := s.currentTime + 1 }

/-- The preemptive loop `for len(pq.processes) > 0`, iterated with fuel. -/
def scheduleLoop (sortFn : List Process → List Process) : Nat → PState → PState
  | 0, s => s
  | fuel + 1, s => if s.pq = [] then s else scheduleLoop sortFn fuel (sjfStep sortFn s)

/-- The per-process initialisation `process.RemainingTime = process.BurstDuration`
performed while filling `pqA`. -/
def initRemaining (p : Process) : Process := { p with RemainingTime := p.BurstDuration }

/-- The Go `schedule` slice is preallocated with `len(processes)` entries
and written sequentially at `count`; entries never written stay `nil`. -/
def padTo (n : Nat) (rows : List ScheduleRow) : List (Option ScheduleRow) :=
  rows.map some ++ List.replicate (n - rows.length) none

/-- Common shape of `SJFSchedule` and `SJFPrioritySchedule` (their bodies
are identical up to the sort used in the arrival scan).  Returns `none`
when the Go code would panic: on an empty input, `pqA.processes[0]`
(main.go lines 228 / 163) indexes an empty slice.  No Gantt chart is
built or emitted by either function. -/
def preemptiveSchedule (sortFn : List Process → List Process) (fuel : Nat)
    (title : String) (ps : List Process) : Option (List OutputEvent) :=
  match sortArrivalQueue (ps.map initRemaining) with
  | [] => none
  | p0 :: rest =>
    let s := scheduleLoop sortFn fuel ⟨ps, rest, [p0], p0, 0, 0, 0, []⟩
    some [OutputEvent.title title,
          OutputEvent.table (padTo ps.length s.schedule)
            ((s.totalWait : ℚ) / (ps.length : ℚ))
            ((s.totalTurnaround : ℚ) / (ps.length : ℚ))
            ((ps.length : ℚ) / (s.process.CompleteTime : ℚ))]

/-- Embeds SJFSchedule (main.go lines 214-281): preemptive SRTF using
`sortDeployQueue` (remaining-time order). -/
def SJFSchedule (fuel : Nat) (title : String) (ps : List Process) : Option (List OutputEvent) :=
  preemptiveSchedule sortDeployQueue fuel title ps

/-- Embeds SJFPrioritySchedule (main.go lines 149-212): preemptive priority
scheduling using `sortPriorityQueue`. -/
def SJFPrioritySchedule (fuel : Nat) (title : String) (ps : List Process) : Option (List OutputEvent) :=
  preemptiveSchedule sortPriorityQueue fuel title ps

/-- Embeds the quantum constant of RRSchedule (main.go line 292). -/
def quantum_time : Int := 2

/-- Embeds the helper minimum of main.go (lines 425-430). -/
def minimum (x y : Int) : Int := if x < y then x else y

/-- State of the `RRSchedule` loop (main.go lines 282-355).  `pending`
models the local `processes` slice header (repeatedly resliced with
`processes = processes[1:]`); `mem` is the caller's backing array, which
is never written.  `schedule` has one slot per input process, written at
index `ProcessID - 1`. -/
structure RRState where
  mem : List Process
  pending : List Process
  queue : List Process
  serviceTime : Int
  wait : Int
  totalTurnaround : Int
  lastCompletion : Int
  schedule : List (Option ScheduleRow)
  gantt : List TimeSlice
deriving Repr, DecidableEq

/-- How one RR loop iteration ends: loop exit, a Go panic, or the next
state. -/
inductive RRStepRes where
  | done
  | oobWrite
  | oobIdle
  | next (s : RRState)
deriving Repr, DecidableEq

/-- The write `schedule[p.ProcessID-1] = ...` (main.go line 337): in
bounds only when `1 ≤ ProcessID ≤ len(schedule)`; otherwise the Go
program panics with index out of range. -/
def setSlot (sched : List (Option ScheduleRow)) (pid : Int) (row : ScheduleRow) :
    Option (List (Option ScheduleRow)) :=
  if 0 ≤ pid - 1 ∧ pid - 1 < (sched.length : Int) then
    some (sched.set (pid - 1).toNat (some row))
  else none

/-- The maximal prefix of `pending` admitted by the RR admission loop
(main.go lines 297-300): processes whose ArrivalTime is ≤ the service
clock, in order. -/
def rrAdmit (s : RRState) : List Process :=
  s.pending.takeWhile (fun p => decide (p.ArrivalTime ≤ s.serviceTime))

/-- The pending processes left after the RR admission loop. -/
def rrRest (s : RRState) : List Process :=
  s.pending.dropWhile (fun p => decide (p.ArrivalTime ≤ s.serviceTime))

/-- The slice duration `minimum(p.BurstDuration, quantum_time)` (main.go line 314). -/
def rrDuration (p : Process) : Int := minimum p.BurstDuration quantum_time

/-- The waiting time of the dequeued RR process, clamped at 0
(main.go lines 307-310). -/
def rrWaiting (st : Int) (p : Process) : Int :=
  if st - p.ArrivalTime < 0 then 0 else st - p.ArrivalTime

/-- The schedule row written for the dequeued RR process when the service
clock was `st` before running it (main.go lines 337-345). -/
def rrRow (st : Int) (p : Process) : ScheduleRow :=
  ⟨p.ProcessID, p.Priority, p.BurstDuration, p.ArrivalTime, rrWaiting st p,
   st + rrDuration p - p.ArrivalTime, st + rrDuration p⟩

/-- The residual process re-enqueued when the quantum expires before
completion (main.go lines 327-332): same id and priority, ArrivalTime set
to the current clock, burst reduced by the quantum. -/
def rrResidual (st : Int) (p : Process) : Process :=
  ⟨p.ProcessID, st + rrDuration p, p.BurstDuration - rrDuration p, p.Priority, 0, 0, 0, 0⟩

/-- One iteration of the RR loop (main.go lines 296-355), including the
loop guard.  `oobIdle` marks the panic `processes[0]` would raise in the
idle branch (line 353) with an empty pending list; the loop guard makes it
unreachable.  `oobWrite` is the out-of-range write to
`schedule[p.ProcessID-1]`. -/
def rrStep (s : RRState) : RRStepRes :=
  if s.queue = [] ∧ s.pending = [] then RRStepRes.done
  else
    match s.queue ++ rrAdmit s with
    | [] =>
      match (rrRest s).head? with
      | some p =>
        RRStepRes.next { s with pending := rrRest s, queue := [], serviceTime := p.ArrivalTime }
      | none => RRStepRes.oobIdle
    | p :: queueRest =>
      match setSlot s.schedule p.ProcessID (rrRow s.serviceTime p) with
      | none => RRStepRes.oobWrite
      | some sched =>
        if rrDuration p = p.BurstDuration then
          RRStepRes.next { s with
            pending := rrRest s
            queue := queueRest
            serviceTime := s.serviceTime + rrDuration p
            wait := s.wait + rrWaiting s.serviceTime p
            totalTurnaround := s.totalTurnaround + (s.serviceTime + rrDuration p - p.ArrivalTime)
            lastCompletion := s.serviceTime + rrDuration p
            schedule := sched
            gantt := s.gantt ++ [⟨p.ProcessID, s.serviceTime, s.serviceTime + rrDuration p⟩] }
        else
          RRStepRes.next { s with
            pending := rrRest s
            queue := queueRest ++ [rrResidual s.serviceTime p]
            serviceTime := s.serviceTime + rrDuration p
            wait := s.wait + rrWaiting s.serviceTime p
            lastCompletion := s.serviceTime + rrDuration p - rrDuration p
            schedule := sched
            gantt := s.gantt ++ [⟨p.ProcessID, s.serviceTime, s.serviceTime + rrDuration p⟩] }

/-- How an RR run ends. -/
inductive RRExit where
  | done
  | oobWrite
  | oobIdle
  | noFuel
deriving Repr, DecidableEq

/-- The RR loop iterated with fuel; returns the exit tag together with the
state reached (on a panic, the state at the start of the failing
iteration). -/
def rrRun : Nat → RRState → RRExit × RRState
  | 0, s => (RRExit.noFuel, s)
  | fuel + 1, s =>
    match rrStep s with
    | RRStepRes.done => (RRExit.done, s)
    | RRStepRes.oobWrite => (RRExit.oobWrite, s)
    | RRStepRes.oobIdle => (RRExit.oobIdle, s)
    | RRStepRes.next s2 => rrRun fuel s2

/-- Initial RR state: empty ready queue, all processes pending,
`schedule = make([][]string, len(processes))`. -/
def rrInit (ps : List Process) : RRState :=
  ⟨ps, ps, [], 0, 0, 0, 0, List.replicate ps.length none, []⟩

/-- Embeds RRSchedule (main.go lines 282-367): the loop, then title, Gantt
chart and schedule table with the three aggregates; `none` when the Go
code would panic. -/
def RRSchedule (fuel : Nat) (title : String) (ps : List Process) : Option (List OutputEvent) :=
  match rrRun fuel (rrInit ps) with
  | (RRExit.done, s) =>
    some [OutputEvent.title title,
          OutputEvent.gantt s.gantt,
          OutputEvent.table s.schedule
            ((s.wait : ℚ) / (s.schedule.length : ℚ))
            ((s.totalTurnaround : ℚ) / (s.schedule.length : ℚ))
            ((s.schedule.length : ℚ) / (s.lastCompletion : ℚ))]
  | _ => none

/-! ### Concrete inputs used by the claims -/

/-- The classic SRTF example of the spec:
`[(1,arr=0,burst=8),(2,arr=1,burst=4),(3,arr=2,burst=9),(4,arr=3,burst=5)]`. -/
def srtfDemo : List Process :=
  [⟨1, 0, 8, 0, 0, 0, 0, 0⟩, ⟨2, 1, 4, 0, 0, 0, 0, 0⟩,
   ⟨3, 2, 9, 0, 0, 0, 0, 0⟩, ⟨4, 3, 5, 0, 0, 0, 0, 0⟩]

/-- The state of `SJFSchedule` on `srtfDemo` right before its main loop:
process 1 seeded as running, processes 2-4 arrival-pending. -/
def srtfState0 : PState :=
  ⟨srtfDemo,
   [⟨2, 1, 4, 0, 4, 0, 0, 0⟩, ⟨3, 2, 9, 0, 9, 0, 0, 0⟩, ⟨4, 3, 5, 0, 5, 0, 0, 0⟩],
   [⟨1, 0, 8, 0, 8, 0, 0, 0⟩], ⟨1, 0, 8, 0, 8, 0, 0, 0⟩, 0, 0, 0, []⟩

/-- Single process, quantum-2 Round-Robin example of the spec. -/
def rrSingle : List Process := [⟨1, 0, 5, 0, 0, 0, 0, 0⟩]

/-- A process arriving at tick 5 with burst 3: under FCFS the wait formula
`serviceTime - arrivalTime` goes negative. -/
def lateArrival : List Process := [⟨1, 5, 3, 0, 0, 0, 0, 0⟩]

/-- Two-process RR input used to evaluate the per-row metric equations on
a finished Round-Robin run. -/
def rrDemo : List Process := [⟨1, 0, 3, 0, 0, 0, 0, 0⟩, ⟨2, 1, 2, 0, 0, 0, 0, 0⟩]

/-- A single well-formed process (used where a nonempty input is needed). -/
def oneProc : List Process := [⟨1, 0, 4, 2, 0, 0, 0, 0⟩]

/-- Input whose only ProcessID (5) exceeds the process count (1). -/
def badIdInput : List Process := [⟨5, 0, 1, 0, 0, 0, 0, 0⟩]

/-- Two distinct processes agreeing on ArrivalTime and BurstDuration. -/
def tieArrA : Process := ⟨1, 3, 5, 2, 0, 0, 0, 0⟩

def tieArrB : Process := ⟨2, 3, 5, 7, 0, 0, 0, 0⟩

/-- Two distinct processes agreeing on RemainingTime and ArrivalTime. -/
def tieRemA : Process := ⟨1, 3, 5, 2, 9, 0, 0, 0⟩

def tieRemB : Process := ⟨2, 3, 7, 1, 9, 0, 0, 0⟩

/-- Two distinct processes agreeing on Priority, BurstDuration and
ArrivalTime. -/
def tiePrioA : Process := ⟨1, 3, 5, 2, 0, 0, 0, 0⟩

def tiePrioB : Process := ⟨2, 3, 5, 2, 8, 0, 0, 0⟩

/-! ### Helper lemmas -/

theorem fcfsList_append (l1 l2 : List Process) (s : FCFSState) :
    fcfsList s (l1 ++ l2) = fcfsList (fcfsList s l1) l2 := by
  induction l1 generalizing s with
  | nil => rfl
  | cons p rest ih => simp [fcfsList, ih]

theorem fcfsList_serviceTime (l : List Process) (s : FCFSState) :
    (fcfsList s l).serviceTime = s.serviceTime + (l.map Process.BurstDuration).sum := by
  induction l generalizing s with
  | nil => simp [fcfsList]
  | cons p rest ih => simp [fcfsList, ih, fcfsStep]; ring

theorem fcfsStateAt_serviceTime (ps : List Process) (i : Nat) :
    (fcfsStateAt ps i).serviceTime = prefBurst ps i := by
  unfold fcfsStateAt prefBurst fcfsInit
  rw [fcfsList_serviceTime]
  simp

theorem fcfsStateAt_succ (ps : List Process) (i : Nat) (h : i < ps.length) :
    fcfsStateAt ps (i + 1) = fcfsStep (fcfsStateAt ps i) ps[i] := by
  unfold fcfsStateAt
  rw [← List.take_concat_get' ps i h, fcfsList_append]
  simp [fcfsList]

/-! ### Claim theorems -/

/-- C2: In FCFSSchedule, at each iteration over the input (in input order,
not re-sorted), the waiting time is updated to `serviceTime - arrivalTime`
only when the process's arrivalTime > 0 and otherwise the previous
iteration's waiting-time value is reused verbatim; then
`start = wait + arrivalTime`, `turnaround = burstDuration + wait`,
`completion = arrivalTime + burstDuration + wait` (the Gantt entry records
`start` and the accumulated clock), and the service clock accumulates
burstDuration after each process (so it equals the prefix sum of bursts). -/
theorem c2_fcfs_iteration_behavior (ps : List Process) (i : Nat) (h : i < ps.length) :
    (fcfsStateAt ps i).serviceTime = prefBurst ps i ∧
    (fcfsStateAt ps (i + 1)).waitingTime =
      (if 0 < ps[i].ArrivalTime then prefBurst ps i - ps[i].ArrivalTime
       else (fcfsStateAt ps i).waitingTime) ∧
    (fcfsStateAt ps (i + 1)).schedule =
      (fcfsStateAt ps i).schedule ++
        [⟨ps[i].ProcessID, ps[i].Priority, ps[i].BurstDuration, ps[i].ArrivalTime,
          (fcfsStateAt ps (i + 1)).waitingTime,
          ps[i].BurstDuration + (fcfsStateAt ps (i + 1)).waitingTime,
          ps[i].BurstDuration + ps[i].ArrivalTime + (fcfsStateAt ps (i + 1)).waitingTime⟩] ∧
    (fcfsStateAt ps (i + 1)).gantt =
      (fcfsStateAt ps i).gantt ++
        [⟨ps[i].ProcessID,
          (fcfsStateAt ps (i + 1)).waitingTime + ps[i].ArrivalTime,
          prefBurst ps i + ps[i].BurstDuration⟩] ∧
    (fcfsStateAt ps (i + 1)).serviceTime = prefBurst ps i + ps[i].BurstDuration := by
  have hs := fcfsStateAt_serviceTime ps i
  have hsucc := fcfsStateAt_succ ps i h
  refine ⟨hs, ?_, ?_, ?_, ?_⟩ <;> rw [hsucc] <;> simp [fcfsStep, hs]

/-- Witness for C2 at a concrete input and index. -/
theorem c2_witness :
    1 < ([⟨1, 0, 5, 0, 0, 0, 0, 0⟩, ⟨2, 1, 3, 0, 0, 0, 0, 0⟩] : List Process).length ∧
    (fcfsStateAt [⟨1, 0, 5, 0, 0, 0, 0, 0⟩, ⟨2, 1, 3, 0, 0, 0, 0, 0⟩] 1).serviceTime =
      prefBurst [⟨1, 0, 5, 0, 0, 0, 0, 0⟩, ⟨2, 1, 3, 0, 0, 0, 0, 0⟩] 1 :=
  ⟨by decide,
   (c2_fcfs_iteration_behavior [⟨1, 0, 5, 0, 0, 0, 0, 0⟩, ⟨2, 1, 3, 0, 0, 0, 0, 0⟩] 1 (by decide)).1⟩

/-- C3: On the classic SRTF input, `SJFSchedule` seeds process 1 as
running, preempts it at tick 1 in favour of process 2, and the recorded
completion times match the textbook SRTF trace: process 2 completes at 5,
process 4 at 10, process 1 at 17, process 3 at 26 (rows listed in
completion order). -/
theorem c3_srtf_textbook_trace :
    sortArrivalQueue (srtfDemo.map initRemaining) = srtfState0.process :: srtfState0.pqA ∧
    srtfState0.pq = [srtfState0.process] ∧
    srtfState0.process.ProcessID = 1 ∧
    (sjfStep sortDeployQueue srtfState0).process.ProcessID = 2 ∧
    (sjfStep sortDeployQueue srtfState0).currentTime = 1 ∧
    ((scheduleLoop sortDeployQueue 40 srtfState0).schedule.map (fun r => (r.pid, r.exit))) =
      [(2, 5), (4, 10), (1, 17), (3, 26)] := by
  refine ⟨by decide, by decide, by decide, by decide, by decide, by decide⟩

/-- C4 (code bug): on an empty input, `SJFSchedule` and
`SJFPrioritySchedule` index `pqA.processes[0]` on an empty slice and the
Go program panics (modelled as `none`), contradicting the spec's contract
of an empty result; `FCFSSchedule` does return empty timeline and metrics
(its aggregate averages in Go are 0/0, i.e. NaN, not 0). -/
theorem c4_empty_input_panics :
    SJFSchedule 100 "Shortest-job-first" [] = none ∧
    SJFPrioritySchedule 100 "Priority" [] = none ∧
    (fcfsRun []).schedule = [] ∧ (fcfsRun []).gantt = [] :=
  ⟨rfl, rfl, rfl, rfl⟩

/-- C7: `RRSchedule` with quantum 2 on `[(1,arr=0,burst=5)]` finishes and
produces exactly the three Timeline intervals `[0,2]`, `[2,4]`, `[4,5]`,
all with process id 1, with recorded wait 0 and completion 5 for
process 1. -/
theorem c7_rr_quantum2_single :
    quantum_time = 2 ∧
    (rrRun 10 (rrInit rrSingle)).1 = RRExit.done ∧
    (rrRun 10 (rrInit rrSingle)).2.gantt = [⟨1, 0, 2⟩, ⟨1, 2, 4⟩, ⟨1, 4, 5⟩] ∧
    ((rrRun 10 (rrInit rrSingle)).2.schedule.map
      (Option.map (fun r => (r.pid, r.wait, r.exit)))) = [some (1, 0, 5)] := by
  refine ⟨by decide, by decide, by decide, by decide⟩

/-- Counterexample to C1 as stated: on `lateArrival` (one process with
arrivalTime 5, burst 3) the FCFS metrics row has wait = -5 and
turnaround = -2, so "both turnaroundTime and waitTime are ≥ 0" fails. -/
theorem c1_counterexample :
    ¬ (∀ r ∈ (fcfsRun lateArrival).schedule, 0 ≤ r.wait ∧ 0 ≤ r.turnaround) := by
  decide

/-- Counterexample to C5 as stated: `SJFSchedule` and
`SJFPrioritySchedule` emit no Timeline (no Gantt chart) on a well-formed
input. -/
theorem c5_counterexample :
    (SJFSchedule 50 "Shortest-job-first" oneProc).map hasGantt = some false ∧
    (SJFPrioritySchedule 50 "Priority" oneProc).map hasGantt = some false := by
  refine ⟨by decide, by decide⟩

/-- Counterexample to C6 as stated: none of the three comparators is a
total order on processes — two distinct processes that agree on the
comparator's key chain are mutually incomparable. -/
theorem c6_counterexample :
    (tieArrA ≠ tieArrB ∧ arrivalLess tieArrA tieArrB = false ∧
      arrivalLess tieArrB tieArrA = false) ∧
    (tieRemA ≠ tieRemB ∧ deployLess tieRemA tieRemB = false ∧
      deployLess tieRemB tieRemA = false) ∧
    (tiePrioA ≠ tiePrioB ∧ priorityLess tiePrioA tiePrioB = false ∧
      priorityLess tiePrioB tiePrioA = false) := by
  decide

/-- C6 (amended): each comparator is exactly the lexicographic strict
order on its stated key chain — arrival: (arrivalTime, burstDuration);
remaining-time: (remainingTime, arrivalTime); priority: (priority,
burstDuration, arrivalTime) — and is an irreflexive, transitive strict
weak order that is total up to equality of the chain keys (distinct
processes agreeing on all chain keys are mutually incomparable, so the
policies are not total orders on processes themselves).  The comparators
are pure functions of their two arguments. -/
theorem c6_ordering_policies (a b c : Process) :
    (arrivalLess a b = true ↔
      (a.ArrivalTime < b.ArrivalTime ∨
        (a.ArrivalTime = b.ArrivalTime ∧ a.BurstDuration < b.BurstDuration))) ∧
    arrivalLess a a = false ∧
    (arrivalLess a b = true → arrivalLess b c = true → arrivalLess a c = true) ∧
    (arrivalLess a b = true ∨ arrivalLess b a = true ∨
      (a.ArrivalTime = b.ArrivalTime ∧ a.BurstDuration = b.BurstDuration)) ∧
    (deployLess a b = true ↔
      (a.RemainingTime < b.RemainingTime ∨
        (a.RemainingTime = b.RemainingTime ∧ a.ArrivalTime < b.ArrivalTime))) ∧
    deployLess a a = false ∧
    (deployLess a b = true → deployLess b c = true → deployLess a c = true) ∧
    (deployLess a b = true ∨ deployLess b a = true ∨
      (a.RemainingTime = b.RemainingTime ∧ a.ArrivalTime = b.ArrivalTime)) ∧
    (priorityLess a b = true ↔
      (a.Priority < b.Priority ∨
        (a.Priority = b.Priority ∧ a.BurstDuration < b.BurstDuration) ∨
        (a.Priority = b.Priority ∧ a.BurstDuration = b.BurstDuration ∧
          a.ArrivalTime < b.ArrivalTime))) ∧
    priorityLess a a = false ∧
    (priorityLess a b = true → priorityLess b c = true → priorityLess a c = true) ∧
    (priorityLess a b = true ∨ priorityLess b a = true ∨
      (a.Priority = b.Priority ∧ a.BurstDuration = b.BurstDuration ∧
        a.ArrivalTime = b.ArrivalTime)) := by
  refine ⟨?_, ?_, ?_, ?_, ?_, ?_, ?_, ?_, ?_, ?_, ?_, ?_⟩ <;>
    simp only [arrivalLess, deployLess, priorityLess, Bool.or_eq_true, Bool.and_eq_true,
      Bool.or_eq_false_iff, Bool.and_eq_false_iff, decide_eq_true_eq, decide_eq_false_iff_not] <;>
    omega

/-- Witness for C6: transitivity of the arrival comparator applied at
concrete processes. -/
theorem c6_witness :
    arrivalLess ⟨1, 1, 1, 0, 0, 0, 0, 0⟩ ⟨2, 2, 1, 0, 0, 0, 0, 0⟩ = true ∧
    arrivalLess ⟨2, 2, 1, 0, 0, 0, 0, 0⟩ ⟨3, 3, 1, 0, 0, 0, 0, 0⟩ = true ∧
    arrivalLess ⟨1, 1, 1, 0, 0, 0, 0, 0⟩ ⟨3, 3, 1, 0, 0, 0, 0, 0⟩ = true :=
  ⟨by decide, by decide,
   (c6_ordering_policies ⟨1, 1, 1, 0, 0, 0, 0, 0⟩ ⟨2, 2, 1, 0, 0, 0, 0, 0⟩
     ⟨3, 3, 1, 0, 0, 0, 0, 0⟩).2.2.1 (by decide) (by decide)⟩

theorem insertLess_length (less : Process → Process → Bool) (p : Process) (l : List Process) :
    (insertLess less p l).length = l.length + 1 := by
  induction l with
  | nil => rfl
  | cons q qs ih =>
    unfold insertLess
    split
    · rfl
    · simp [List.length_cons, ih]

theorem sortLess_length (less : Process → Process → Bool) (l : List Process) :
    (sortLess less l).length = l.length := by
  induction l with
  | nil => rfl
  | cons p ps ih => simp [sortLess, insertLess_length, ih]

theorem sortArrivalQueue_ne_nil (ps : List Process) (h : ps ≠ []) :
    sortArrivalQueue (ps.map initRemaining) ≠ [] := by
  intro hnil
  have : (sortArrivalQueue (ps.map initRemaining)).length = 0 := by rw [hnil]; rfl
  rw [sortArrivalQueue, sortLess_length, List.length_map] at this
  exact h (List.length_eq_zero.mp this)

theorem preemptiveSchedule_shape (sortFn : List Process → List Process) (fuel : Nat)
    (title : String) (ps : List Process) (evs : List OutputEvent)
    (h : preemptiveSchedule sortFn fuel title ps = some evs) :
    hasGantt evs = false ∧ hasTable evs = true := by
  unfold preemptiveSchedule at h
  cases hsort : sortArrivalQueue (ps.map initRemaining) with
  | nil => rw [hsort] at h; exact absurd h (by simp)
  | cons p0 rest =>
    rw [hsort] at h
    simp only [Option.some.injEq] at h
    subst h
    exact ⟨rfl, rfl⟩

/-- C5 (amended): FCFSSchedule and RRSchedule emit both a Timeline (Gantt
chart) and the metrics table with the three aggregate scalars; SJFSchedule
and SJFPrioritySchedule emit the metrics table with the three aggregates
but no Timeline at all (and succeed on every nonempty input for which the
given fuel covers the loop; on empty input they panic, see C4). -/
theorem c5_output_contract :
    (∀ title ps, hasGantt (FCFSSchedule title ps) = true ∧
      hasTable (FCFSSchedule title ps) = true) ∧
    (∀ fuel title ps, ps ≠ [] → (SJFSchedule fuel title ps).isSome = true) ∧
    (∀ fuel title ps evs, SJFSchedule fuel title ps = some evs →
      hasGantt evs = false ∧ hasTable evs = true) ∧
    (∀ fuel title ps, ps ≠ [] → (SJFPrioritySchedule fuel title ps).isSome = true) ∧
    (∀ fuel title ps evs, SJFPrioritySchedule fuel title ps = some evs →
      hasGantt evs = false ∧ hasTable evs = true) ∧
    (∀ fuel title ps evs, RRSchedule fuel title ps = some evs →
      hasGantt evs = true ∧ hasTable evs = true) := by
  refine ⟨fun title ps => ⟨rfl, rfl⟩, ?_, ?_, ?_, ?_, ?_⟩
  · intro fuel title ps h
    unfold SJFSchedule preemptiveSchedule
    cases hsort : sortArrivalQueue (ps.map initRemaining) with
    | nil => exact absurd hsort (sortArrivalQueue_ne_nil ps h)
    | cons p0 rest => rfl
  · exact fun fuel title ps evs h => preemptiveSchedule_shape _ fuel title ps evs h
  · intro fuel title ps h
    unfold SJFPrioritySchedule preemptiveSchedule
    cases hsort : sortArrivalQueue (ps.map initRemaining) with
    | nil => exact absurd hsort (sortArrivalQueue_ne_nil ps h)
    | cons p0 rest => rfl
  · exact fun fuel title ps evs h => preemptiveSchedule_shape _ fuel title ps evs h
  · intro fuel title ps evs h
    unfold RRSchedule at h
    cases hrun : rrRun fuel (rrInit ps) with
    | mk e s =>
      rw [hrun] at h
      cases e with
      | done =>
        simp only [Option.some.injEq] at h
        subst h
        exact ⟨rfl, rfl⟩
      | oobWrite => exact absurd h (by simp)
      | oobIdle => exact absurd h (by simp)
      | noFuel => exact absurd h (by simp)

/-- Witness for C5: a nonempty input on which SJFSchedule succeeds. -/
theorem c5_witness :
    (oneProc ≠ []) ∧ (SJFSchedule 10 "Shortest-job-first" oneProc).isSome = true :=
  ⟨by decide, c5_output_contract.2.1 10 "Shortest-job-first" oneProc (by decide)⟩

theorem fcfsList_mem (l : List Process) (s : FCFSState) :
    (fcfsList s l).mem = s.mem := by
  induction l generalizing s with
  | nil => rfl
  | cons p rest ih => simp [fcfsList, ih, fcfsStep]

theorem sjfStep_mem (sortFn : List Process → List Process) (s : PState) :
    (sjfStep sortFn s).mem = s.mem := by
  unfold sjfStep
  split
  · rfl
  · cases hfind : s.pqA.find? (fun p => p.ArrivalTime == s.currentTime + 1) <;> simp [hfind]

theorem scheduleLoop_mem (sortFn : List Process → List Process) (fuel : Nat) (s : PState) :
    (scheduleLoop sortFn fuel s).mem = s.mem := by
  induction fuel generalizing s with
  | zero => rfl
  | succ n ih =>
    unfold scheduleLoop
    split
    · rfl
    · rw [ih, sjfStep_mem]

theorem rrStep_mem (s s2 : RRState) (h : rrStep s = RRStepRes.next s2) : s2.mem = s.mem := by
  unfold rrStep at h
  split at h
  · simp at h
  · split at h
    · split at h
      · injection h with h2
        subst h2
        rfl
      · simp at h
    · split at h
      · simp at h
      · split at h
        · injection h with h2
          subst h2
          rfl
        · injection h with h2
          subst h2
          rfl

theorem rrRun_mem (fuel : Nat) (s : RRState) : ((rrRun fuel s).2).mem = s.mem := by
  induction fuel generalizing s with
  | zero => rfl
  | succ n ih =>
    simp only [rrRun]
    cases hstep : rrStep s with
    | done => rfl
    | oobWrite => rfl
    | oobIdle => rfl
    | next s2 => rw [ih s2, rrStep_mem s s2 hstep]

/-- C8: no scheduler mutates the caller's process slice.  Each state
record threads the caller's backing array `mem`; every loop of every
algorithm returns it unchanged (the Go code copies each `Process` value
into its own queues and never assigns through the input slice), so
running several algorithms in sequence gives each one identical input. -/
theorem c8_no_input_mutation :
    (∀ s l, (fcfsList s l).mem = s.mem) ∧
    (∀ ps, (fcfsRun ps).mem = ps) ∧
    (∀ sortFn fuel s, (scheduleLoop sortFn fuel s).mem = s.mem) ∧
    (∀ fuel s, ((rrRun fuel s).2).mem = s.mem) ∧
    (∀ fuel ps, ((rrRun fuel (rrInit ps)).2).mem = ps) :=
  ⟨fun s l => fcfsList_mem l s,
   fun ps => fcfsList_mem ps (fcfsInit ps),
   fun sortFn fuel s => scheduleLoop_mem sortFn fuel s,
   fun fuel s => rrRun_mem fuel s,
   fun fuel ps => rrRun_mem fuel (rrInit ps)⟩

theorem sjfStep_currentTime (sortFn : List Process → List Process) (s : PState) :
    (sjfStep sortFn s).currentTime = s.currentTime + 1 := by
  unfold sjfStep
  split
  · rfl
  · cases hfind : s.pqA.find? (fun p => p.ArrivalTime == s.currentTime + 1) <;> simp [hfind]

theorem removeFirst_cons (pred : Process → Bool) (p : Process) (rest : List Process) :
    removeFirst pred (p :: rest) =
      if pred p then rest else p :: removeFirst pred rest := rfl

theorem mem_removeFirst (pred : Process → Bool) (l : List Process) (q : Process)
    (hq : q ∈ l) (hpred : pred q = false) : q ∈ removeFirst pred l := by
  induction l with
  | nil => cases hq
  | cons p rest ih =>
    cases hp : pred p with
    | true =>
      rw [removeFirst_cons, hp, if_pos rfl]
      rcases List.mem_cons.mp hq with hq1 | hq1
      · subst hq1; rw [hpred] at hp; cases hp
      · exact hq1
    | false =>
      rw [removeFirst_cons, hp]
      simp only [Bool.false_eq_true, if_false]
      rcases List.mem_cons.mp hq with hq1 | hq1
      · subst hq1; exact List.mem_cons_self q _
      · exact List.mem_cons_of_mem p (ih hq1)

theorem length_removeFirst_of_find (pred : Process → Bool) (l : List Process) (a : Process)
    (h : l.find? pred = some a) : (removeFirst pred l).length + 1 = l.length := by
  induction l with
  | nil => simp [List.find?] at h
  | cons p rest ih =>
    cases hp : pred p with
    | true => simp [removeFirst, hp]
    | false =>
      rw [List.find?_cons_of_neg _ (by simp [hp])] at h
      simp [removeFirst, hp, ih h]

theorem sjfStep_pqA (sortFn : List Process → List Process) (s : PState) :
    (sjfStep sortFn s).pqA = s.pqA ∨
    (∃ p, p ∈ s.pqA ∧ p.ArrivalTime = s.currentTime + 1 ∧
      (sjfStep sortFn s).pqA =
        removeFirst (fun q => q.ArrivalTime == s.currentTime + 1) s.pqA ∧
      (sjfStep sortFn s).pqA.length + 1 = s.pqA.length) := by
  unfold sjfStep
  split
  · exact Or.inl rfl
  · cases hfind : s.pqA.find? (fun p => p.ArrivalTime == s.currentTime + 1) with
    | none => exact Or.inl (by simp [hfind])
    | some p =>
      refine Or.inr ⟨p, List.mem_of_find?_eq_some hfind, ?_, ?_, ?_⟩
      · have hpt :=
          @List.find?_some Process (fun q => q.ArrivalTime == s.currentTime + 1) p s.pqA hfind
        exact eq_of_beq hpt
      · simp [hfind]
      · simp only [hfind]
        exact length_removeFirst_of_find _ _ _ hfind

/-- C9: in the preemptive schedulers (SJF and SJFPriority share this loop
body), a single clock tick admits at most one process from the
arrival-pending queue `pqA` — the arrival scan removes exactly the first
process whose ArrivalTime equals the new clock value, or nothing — and
since the clock advances by one every iteration, any process still
pending whose ArrivalTime is already strictly below the clock is never
admitted on any later tick: it remains in `pqA` forever. -/
theorem c9_single_admission_per_tick :
    (∀ sortFn s, (sjfStep sortFn s).currentTime = s.currentTime + 1 ∧
      ((sjfStep sortFn s).pqA = s.pqA ∨
        (∃ p, p ∈ s.pqA ∧ p.ArrivalTime = s.currentTime + 1 ∧
          (sjfStep sortFn s).pqA =
            removeFirst (fun q => q.ArrivalTime == s.currentTime + 1) s.pqA ∧
          (sjfStep sortFn s).pqA.length + 1 = s.pqA.length))) ∧
    (∀ sortFn fuel s q, q ∈ s.pqA → q.ArrivalTime < s.currentTime →
      q ∈ (scheduleLoop sortFn fuel s).pqA) := by
  refine ⟨fun sortFn s => ⟨sjfStep_currentTime sortFn s, sjfStep_pqA sortFn s⟩, ?_⟩
  intro sortFn fuel
  induction fuel with
  | zero => intro s q hq _; exact hq
  | succ n ih =>
    intro s q hq hlt
    unfold scheduleLoop
    split
    · exact hq
    · refine ih (sjfStep sortFn s) q ?_ ?_
      · rcases sjfStep_pqA sortFn s with hsame | ⟨p, _, _, hrem, _⟩
        · rw [hsame]; exact hq
        · rw [hrem]
          refine mem_removeFirst _ _ _ hq ?_
          exact beq_eq_false_iff_ne.mpr (by omega)
      · rw [sjfStep_currentTime]
        omega

theorem fcfsList_rows (l : List Process) (s : FCFSState)
    (hinv : ∀ r ∈ s.schedule,
      r.turnaround = r.exit - r.arrival ∧ r.wait = r.turnaround - r.burst) :
    ∀ r ∈ (fcfsList s l).schedule,
      r.turnaround = r.exit - r.arrival ∧ r.wait = r.turnaround - r.burst := by
  induction l generalizing s with
  | nil => exact hinv
  | cons p rest ih =>
    refine ih (fcfsStep s p) ?_
    intro r hr
    simp only [fcfsStep, List.mem_append, List.mem_singleton] at hr
    rcases hr with hr | hr
    · exact hinv r hr
    · subst hr
      exact ⟨by dsimp; ring, by dsimp; ring⟩

theorem sjfStep_schedule (sortFn : List Process → List Process) (s : PState) :
    (sjfStep sortFn s).schedule = s.schedule ∨
    (sjfStep sortFn s).schedule =
      s.schedule ++ [finRow (sjfFin (s.currentTime + 1) (sjfRunning s))] := by
  unfold sjfStep
  split
  · exact Or.inr rfl
  · cases hfind : s.pqA.find? (fun p => p.ArrivalTime == s.currentTime + 1) with
    | none => exact Or.inl (by simp [hfind])
    | some p => exact Or.inl (by simp [hfind])

theorem scheduleLoop_rows (sortFn : List Process → List Process) (fuel : Nat) (s : PState)
    (hinv : ∀ r ∈ s.schedule,
      r.turnaround = r.exit - r.arrival ∧ r.wait = r.turnaround - r.burst) :
    ∀ r ∈ (scheduleLoop sortFn fuel s).schedule,
      r.turnaround = r.exit - r.arrival ∧ r.wait = r.turnaround - r.burst := by
  induction fuel generalizing s with
  | zero => exact hinv
  | succ n ih =>
    unfold scheduleLoop
    split
    · exact hinv
    · refine ih (sjfStep sortFn s) ?_
      intro r hr
      rcases sjfStep_schedule sortFn s with hs | hs
      · rw [hs] at hr
        exact hinv r hr
      · rw [hs] at hr
        rcases List.mem_append.mp hr with hr1 | hr1
        · exact hinv r hr1
        · have hr2 : r = finRow (sjfFin (s.currentTime + 1) (sjfRunning s)) := by
            simpa using hr1
          subst hr2
          exact ⟨by simp [finRow, sjfFin], by simp [finRow, sjfFin]⟩

theorem setSlot_eq_some (sched : List (Option ScheduleRow)) (pid : Int) (row : ScheduleRow)
    (sched2 : List (Option ScheduleRow)) (h : setSlot sched pid row = some sched2) :
    sched2 = sched.set (pid - 1).toNat (some row) := by
  unfold setSlot at h
  split at h
  · injection h with h2
    exact h2.symm
  · cases h

theorem rrStep_rows (s s2 : RRState) (h : rrStep s = RRStepRes.next s2)
    (hinv : ∀ ro ∈ s.schedule, ∀ r, ro = some r → r.turnaround = r.exit - r.arrival) :
    ∀ ro ∈ s2.schedule, ∀ r, ro = some r → r.turnaround = r.exit - r.arrival := by
  unfold rrStep at h
  by_cases hdone : s.queue = [] ∧ s.pending = []
  · rw [if_pos hdone] at h
    cases h
  · rw [if_neg hdone] at h
    cases hqa : s.queue ++ rrAdmit s with
    | nil =>
      rw [hqa] at h
      cases hh : (rrRest s).head? with
      | some p0 =>
        rw [hh] at h
        injection h with h2
        subst h2
        exact hinv
      | none =>
        rw [hh] at h
        cases h
    | cons p queueRest =>
      rw [hqa] at h
      dsimp only at h
      cases hslot : setSlot s.schedule p.ProcessID (rrRow s.serviceTime p) with
      | none =>
        rw [hslot] at h
        cases h
      | some sched =>
        rw [hslot] at h
        dsimp only at h
        have hsched := setSlot_eq_some _ _ _ _ hslot
        have hrows : ∀ ro ∈ sched, ∀ r, ro = some r → r.turnaround = r.exit - r.arrival := by
          intro ro hro r hr
          rw [hsched] at hro
          rcases List.mem_or_eq_of_mem_set hro with hro1 | hro1
          · exact hinv ro hro1 r hr
          · rw [hro1] at hr
            injection hr with hr2
            rw [← hr2]
            simp [rrRow]
        by_cases hdur : rrDuration p = p.BurstDuration
        · rw [if_pos hdur] at h
          injection h with h2
          subst h2
          exact hrows
        · rw [if_neg hdur] at h
          injection h with h2
          subst h2
          exact hrows

theorem rrRun_rows (fuel : Nat) (s : RRState)
    (hinv : ∀ ro ∈ s.schedule, ∀ r, ro = some r → r.turnaround = r.exit - r.arrival) :
    ∀ ro ∈ ((rrRun fuel s).2).schedule, ∀ r, ro = some r →
      r.turnaround = r.exit - r.arrival := by
  induction fuel generalizing s with
  | zero => exact hinv
  | succ n ih =>
    simp only [rrRun]
    cases hstep : rrStep s with
    | done => exact hinv
    | oobWrite => exact hinv
    | oobIdle => exact hinv
    | next s2 => exact ih s2 (rrStep_rows s s2 hstep hinv)

/-- C1 (amended): in every algorithm, every emitted metrics row satisfies
`turnaround = completion - arrival` with respect to the values recorded in
that row; for FCFS, SJF and SJFPriority every row also satisfies
`wait = turnaround - burst`.  Nonnegativity of wait and turnaround does
NOT hold in general (see the counterexample: FCFS produces negative wait
and turnaround when a process arrives after the accumulated service
clock); on the finished Round-Robin run of `rrDemo` all rows additionally
satisfy `wait = turnaround - burst` and nonnegativity. -/
theorem c1_metrics_equations :
    (∀ ps : List Process, ∀ r ∈ (fcfsRun ps).schedule,
      r.turnaround = r.exit - r.arrival ∧ r.wait = r.turnaround - r.burst) ∧
    (∀ sortFn fuel mem pqA pq pr t w tw,
      ∀ r ∈ (scheduleLoop sortFn fuel ⟨mem, pqA, pq, pr, t, w, tw, []⟩).schedule,
      r.turnaround = r.exit - r.arrival ∧ r.wait = r.turnaround - r.burst) ∧
    (∀ fuel ps, ∀ ro ∈ ((rrRun fuel (rrInit ps)).2).schedule, ∀ r, ro = some r →
      r.turnaround = r.exit - r.arrival) ∧
    (∀ ro ∈ ((rrRun 32 (rrInit rrDemo)).2).schedule, ∀ r, ro = some r →
      r.turnaround = r.exit - r.arrival ∧ r.wait = r.turnaround - r.burst ∧
      0 ≤ r.wait ∧ 0 ≤ r.turnaround) := by
  refine ⟨?_, ?_, ?_, ?_⟩
  · intro ps
    exact fcfsList_rows ps (fcfsInit ps) (by intro r hr; cases hr)
  · intro sortFn fuel mem pqA pq pr t w tw
    exact scheduleLoop_rows sortFn fuel _ (by intro r hr; cases hr)
  · intro fuel ps
    refine rrRun_rows fuel (rrInit ps) ?_
    intro ro hro r hr
    have hnone := List.eq_of_mem_replicate hro
    rw [hnone] at hr
    cases hr
  · decide

/-- Witness for C1: the metric equations at a concrete FCFS row. -/
theorem c1_witness :
    (⟨3, 1, 2, 0, 0, 2, 2⟩ : ScheduleRow) ∈
      (fcfsRun [⟨3, 0, 2, 1, 0, 0, 0, 0⟩]).schedule ∧
    ((⟨3, 1, 2, 0, 0, 2, 2⟩ : ScheduleRow).turnaround =
      (⟨3, 1, 2, 0, 0, 2, 2⟩ : ScheduleRow).exit -
        (⟨3, 1, 2, 0, 0, 2, 2⟩ : ScheduleRow).arrival ∧
     (⟨3, 1, 2, 0, 0, 2, 2⟩ : ScheduleRow).wait =
      (⟨3, 1, 2, 0, 0, 2, 2⟩ : ScheduleRow).turnaround -
        (⟨3, 1, 2, 0, 0, 2, 2⟩ : ScheduleRow).burst) :=
  ⟨by decide,
   c1_metrics_equations.1 [⟨3, 0, 2, 1, 0, 0, 0, 0⟩] ⟨3, 1, 2, 0, 0, 2, 2⟩ (by decide)⟩

theorem mem_rrAdmit (s : RRState) (x : Process) (h : x ∈ rrAdmit s) : x ∈ s.pending :=
  List.IsPrefix.mem h ( List.takeWhile_prefix _)

theorem mem_rrRest (s : RRState) (x : Process) (h : x ∈ rrRest s) : x ∈ s.pending :=
  List.IsSuffix.mem h (List.dropWhile_suffix _)

theorem setSlot_isSome (sched : List (Option ScheduleRow)) (pid : Int) (row : ScheduleRow)
    (h1 : 1 ≤ pid) (h2 : pid ≤ (sched.length : Int)) :
    setSlot sched pid row = some (sched.set (pid - 1).toNat (some row)) := by
  unfold setSlot
  rw [if_pos ⟨by omega, by omega⟩]

/-- Every ProcessID in the ready queue and in the pending list is a legal
1-based index into the metrics table. -/
def rrIdsOk (s : RRState) : Prop :=
  (∀ p ∈ s.queue, 1 ≤ p.ProcessID ∧ p.ProcessID ≤ (s.schedule.length : Int)) ∧
  (∀ p ∈ s.pending, 1 ≤ p.ProcessID ∧ p.ProcessID ≤ (s.schedule.length : Int))

theorem rrStep_ids (s : RRState) (hids : rrIdsOk s) :
    rrStep s ≠ RRStepRes.oobWrite ∧
    (∀ s2, rrStep s = RRStepRes.next s2 → rrIdsOk s2) := by
  obtain ⟨hq, hp⟩ := hids
  unfold rrStep
  by_cases hdone : s.queue = [] ∧ s.pending = []
  · rw [if_pos hdone]
    exact ⟨fun h => RRStepRes.noConfusion h, fun s2 h => by cases h⟩
  · rw [if_neg hdone]
    cases hqa : s.queue ++ rrAdmit s with
    | nil =>
      cases hh : (rrRest s).head? with
      | some p0 =>
        refine ⟨fun h => RRStepRes.noConfusion h, fun s2 h => ?_⟩
        injection h with h2
        subst h2
        refine ⟨fun x hx => ?_, fun x hx => ?_⟩
        · cases hx
        · exact hp x (mem_rrRest s x hx)
      | none =>
        exact ⟨fun h => RRStepRes.noConfusion h, fun s2 h => by cases h⟩
    | cons p queueRest =>
      have hmem : ∀ x ∈ p :: queueRest,
          1 ≤ x.ProcessID ∧ x.ProcessID ≤ (s.schedule.length : Int) := by
        intro x hx
        have hx2 : x ∈ s.queue ++ rrAdmit s := by rw [hqa]; exact hx
        rcases List.mem_append.mp hx2 with h1 | h1
        · exact hq x h1
        · exact hp x (mem_rrAdmit s x h1)
      have hpb := hmem p (List.mem_cons_self p queueRest)
      dsimp only
      rw [setSlot_isSome s.schedule p.ProcessID (rrRow s.serviceTime p) hpb.1 hpb.2]
      dsimp only
      have hlen : ((s.schedule.set (p.ProcessID - 1).toNat (some (rrRow s.serviceTime p))).length : Int) =
          (s.schedule.length : Int) := by
        rw [List.length_set]
      by_cases hdur : rrDuration p = p.BurstDuration
      · rw [if_pos hdur]
        refine ⟨fun h => RRStepRes.noConfusion h, fun s2 h => ?_⟩
        injection h with h2
        subst h2
        refine ⟨fun x hx => ?_, fun x hx => ?_⟩
        · rw [hlen]
          exact hmem x (List.mem_cons_of_mem p hx)
        · rw [hlen]
          exact hp x (mem_rrRest s x hx)
      · rw [if_neg hdur]
        refine ⟨fun h => RRStepRes.noConfusion h, fun s2 h => ?_⟩
        injection h with h2
        subst h2
        refine ⟨fun x hx => ?_, fun x hx => ?_⟩
        · rw [hlen]
          rcases List.mem_append.mp hx with h1 | h1
          · exact hmem x (List.mem_cons_of_mem p h1)
          · have hx2 : x = rrResidual s.serviceTime p := by simpa using h1
            subst hx2
            exact hpb
        · rw [hlen]
          exact hp x (mem_rrRest s x hx)

theorem rrRun_not_oobWrite (fuel : Nat) (s : RRState) (hids : rrIdsOk s) :
    (rrRun fuel s).1 ≠ RRExit.oobWrite := by
  induction fuel generalizing s with
  | zero => exact fun h => RRExit.noConfusion h
  | succ n ih =>
    simp only [rrRun]
    cases hstep : rrStep s with
    | done => exact fun h => RRExit.noConfusion h
    | oobWrite => exact absurd hstep (rrStep_ids s hids).1
    | oobIdle => exact fun h => RRExit.noConfusion h
    | next s2 => exact ih s2 ((rrStep_ids s hids).2 s2 hstep)

/-- C10: `RRSchedule` stores each metrics row at slice index
`ProcessID - 1`; whenever every ProcessID of the input lies in
`1 ≤ ProcessID ≤ number of processes`, no iteration of the loop ever
performs the out-of-range write (for any fuel), and the out-of-range
branch is reachable: on `badIdInput` (one process with ProcessID 5) the
run ends in the out-of-range write panic. -/
theorem c10_rr_slot_indexing :
    (∀ fuel ps, (∀ p ∈ ps, 1 ≤ p.ProcessID ∧ p.ProcessID ≤ (ps.length : Int)) →
      (rrRun fuel (rrInit ps)).1 ≠ RRExit.oobWrite) ∧
    (rrRun 5 (rrInit badIdInput)).1 = RRExit.oobWrite := by
  refine ⟨?_, by decide⟩
  intro fuel ps hps
  refine rrRun_not_oobWrite fuel (rrInit ps) ⟨fun x hx => ?_, fun x hx => ?_⟩
  · cases hx
  · have := hps x hx
    simpa [rrInit] using this

/-- Witness for C10: a well-formed single-process input never reaches the
out-of-range write. -/
theorem c10_witness :
    (∀ p ∈ rrSingle, 1 ≤ p.ProcessID ∧ p.ProcessID ≤ (rrSingle.length : Int)) ∧
    (rrRun 10 (rrInit rrSingle)).1 ≠ RRExit.oobWrite :=
  ⟨by decide, c10_rr_slot_indexing.1 10 rrSingle (by decide)⟩

/-- Witness for C9: a pending process with ArrivalTime 2 < clock 5 is
still pending after running the loop. -/
theorem c9_witness :
    (⟨9, 2, 4, 0, 4, 0, 0, 0⟩ : Process) ∈
      (⟨[], [⟨9, 2, 4, 0, 4, 0, 0, 0⟩], [⟨1, 0, 3, 0, 1, 0, 0, 0⟩],
        ⟨1, 0, 3, 0, 1, 0, 0, 0⟩, 5, 0, 0, []⟩ : PState).pqA ∧
    (⟨9, 2, 4, 0, 4, 0, 0, 0⟩ : Process).ArrivalTime <
      (⟨[], [⟨9, 2, 4, 0, 4, 0, 0, 0⟩], [⟨1, 0, 3, 0, 1, 0, 0, 0⟩],
        ⟨1, 0, 3, 0, 1, 0, 0, 0⟩, 5, 0, 0, []⟩ : PState).currentTime ∧
    (⟨9, 2, 4, 0, 4, 0, 0, 0⟩ : Process) ∈
      (scheduleLoop sortDeployQueue 6
        (⟨[], [⟨9, 2, 4, 0, 4, 0, 0, 0⟩], [⟨1, 0, 3, 0, 1, 0, 0, 0⟩],
          ⟨1, 0, 3, 0, 1, 0, 0, 0⟩, 5, 0, 0, []⟩ : PState)).pqA :=
  ⟨by decide, by decide,
   c9_single_admission_per_tick.2 sortDeployQueue 6
     (⟨[], [⟨9, 2, 4, 0, 4, 0, 0, 0⟩], [⟨1, 0, 3, 0, 1, 0, 0, 0⟩],
       ⟨1, 0, 3, 0, 1, 0, 0, 0⟩, 5, 0, 0, []⟩ : PState)
     (⟨9, 2, 4, 0, 4, 0, 0, 0⟩ : Process) (by decide) (by decide)⟩

end ProcessScheduler
